import Mathlib

/-!
Verification of the cfssl certificate bundler (package `bundler`,
`bundler.go`) against its natural-language specification.

The Go code is shallowly embedded: certificates are records of the fields
the bundler inspects, byte strings are Lean `String`s, Go slices are Lean
lists, the mutable `Bundler` receiver is threaded explicitly as a
`BundlerState`, and the external effects (the x509 verifier, HTTP fetches)
are oracle parameters.  Times are modelled as integer seconds, so the Go
condition `NotAfter.Sub(now).Hours() < 720` becomes
`notAfter - now < 720 * 3600`.

The `ubiquity` package is not part of the sources; its scorers and the
`Filter` operation are modelled from the specification (each such
definition is marked `Modelled from the spec:`).
-/

namespace CFSSL

/-- Signature hash algorithm of a certificate, as far as the bundler's
ubiquity scoring distinguishes it. -/
inductive HashAlgo
  | sha1
  | sha2
  | unknownHash
  deriving DecidableEq

/-- Public key carried by a certificate: RSA with modulus `N`, ECDSA with a
curve size and public point `X` coordinate, or anything else. -/
inductive PubKey
  | rsa (N : Int)
  | ecdsa (curve : Nat) (X : Int)
  | otherKey
  deriving DecidableEq

/-- The fields of `x509.Certificate` that the bundler reads.  `signature`
models the raw signature bytes (Go converts them to `string` map keys);
`selfSigned` models `cert.CheckSignatureFrom(cert) == nil`. -/
structure Cert where
  signature : String
  notAfter : Int
  subjectKeyId : List Nat
  pub : PubKey
  sigHash : HashAlgo
  issuingCertificateURL : List String
  subjectCommonName : String
  selfSigned : Bool
  deriving DecidableEq

/-- Placeholder certificate used as the default of `List.getD`; every use is
guarded by an in-bounds index. -/
def dummyCert : Cert :=
  { signature := "", notAfter := 0, subjectKeyId := [], pub := PubKey.otherKey,
    sigHash := HashAlgo.unknownHash, issuingCertificateURL := [],
    subjectCommonName := "", selfSigned := false }

/-- `fetchedIntermediate` from bundler.go: a certificate and the stash file
basename attached to it. -/
structure FetchedIntermediate where
  cert : Cert
  name : String
  deriving DecidableEq

/-- The mutable state of a `Bundler`: the two pools, the `KnownIssuers` set
(signature strings), and the list of stash basenames written so far (the
nanosecond timestamp suffix appended in Go is immaterial to the claims). -/
structure BundlerState where
  rootPool : List Cert
  intermediatePool : List Cert
  knownIssuers : List String
  stash : List String
  deriving DecidableEq

/-- Error reasons raised by `Bundle` (from the `errors` package constants
referenced in bundler.go). -/
inductive BundlerErr
  | keyMismatch
  | notRSAOrECC
  | selfSignedErr
  | verifyFailed
  | unknownAuthority
  deriving DecidableEq

/-- A supplied private key, after Go's runtime type tests:
`*rsa.PrivateKey`, `*ecdsa.PrivateKey`, or any other dynamic type. -/
inductive PrivKey
  | rsaKey (N : Int)
  | ecdsaKey (X : Int)
  | otherPriv
  deriving DecidableEq

/-- Warning text from bundler.go line 41. -/
def sha2Warning : String :=
  "The bundle contains certs signed with advanced hash functions such as SHA2,  which are problematic at certain operating systems, e.g. Windows XP SP2."

/-- Warning text from bundler.go line 42. -/
def expiringWarningStub : String := "The bundle is expiring within 30 days. "

/-- Warning text from bundler.go line 43. -/
def untrustedWarningStub : String :=
  "The bundle may not be trusted by the following platform(s):"

/-- Modelled from the spec: per-certificate hash ubiquity,
SHA1 = 1, SHA2 = 2, Unknown = 0 (the `ubiquity` package is not in the
sources). -/
def hashUbiquity (c : Cert) : Nat :=
  match c.sigHash with
  | HashAlgo.sha1 => 1
  | HashAlgo.sha2 => 2
  | HashAlgo.unknownHash => 0

/-- Modelled from the spec: the `SHA2Ubiquity` constant, the hash-ubiquity
rank of a SHA-2 signed certificate. -/
def SHA2Ubiquity : Nat := 2

/-- Modelled from the spec: `ChainHashUbiquity(chain)` is the minimum
`hashUbiquity` over the chain members. -/
def ChainHashUbiquity : List Cert → Nat
  | [] => 0
  | c :: cs => (cs.map hashUbiquity).foldl min (hashUbiquity c)

/-- Modelled from the spec: per-certificate key-algorithm ubiquity,
RSA = 100, ECDSA P-256 = 2, ECDSA P-384 = 1, ECDSA P-521 = 0, other = 0. -/
def keyAlgoUbiquity (c : Cert) : Nat :=
  match c.pub with
  | PubKey.rsa _ => 100
  | PubKey.ecdsa curve _ =>
      if curve = 256 then 2 else if curve = 384 then 1 else 0
  | PubKey.otherKey => 0

/-- Modelled from the spec: `ChainKeyAlgoUbiquity(chain)` is the minimum
`keyAlgoUbiquity` over the chain members. -/
def ChainKeyAlgoUbiquity : List Cert → Nat
  | [] => 0
  | c :: cs => (cs.map keyAlgoUbiquity).foldl min (keyAlgoUbiquity c)

/-- Modelled from the spec: per-certificate hash strength rank used for the
optimal flavor; stronger hashes score higher, only the order matters. -/
def hashPriority (c : Cert) : Nat :=
  match c.sigHash with
  | HashAlgo.sha1 => 1
  | HashAlgo.sha2 => 2
  | HashAlgo.unknownHash => 0

/-- Modelled from the spec: per-certificate key strength rank; RSA key size
contributes monotonically and ECDSA curves rank above RSA on this axis. -/
def keyAlgoPriority (c : Cert) : Nat :=
  match c.pub with
  | PubKey.rsa n => (n / 1024).toNat
  | PubKey.ecdsa curve _ => 100 + curve
  | PubKey.otherKey => 0

/-- Modelled from the spec: `HashPriority(chain)` is the arithmetic mean
(integer division) of the per-certificate hash priorities. -/
def HashPriority (chain : List Cert) : Nat :=
  ((chain.map hashPriority).foldl (· + ·) 0) / chain.length

/-- Modelled from the spec: `KeyAlgoPriority(chain)` is the arithmetic mean
(integer division) of the per-certificate key-algorithm priorities. -/
def KeyAlgoPriority (chain : List Cert) : Nat :=
  ((chain.map keyAlgoPriority).foldl (· + ·) 0) / chain.length

/-- Modelled from the spec: `ChainExpiry(chain)` is the minimum `NotAfter`
over the chain members. -/
def ChainExpiry : List Cert → Int
  | [] => 0
  | c :: cs => (cs.map (·.notAfter)).foldl min c.notAfter

/-- Modelled from the spec: a platform record — name, weight, required
minimum hash and key-algorithm ubiquity ranks, and the set of trusted root
signatures loaded from its key store. -/
structure Platform where
  name : String
  weight : Nat
  minHashUbiquity : Nat
  minKeyAlgoUbiquity : Nat
  trustStore : List String
  deriving DecidableEq

/-- Modelled from the spec: `CrossPlatformUbiquity(chain)` sums the weights
of the platforms that trust the chain's root and whose required hash and
key-algorithm ranks are met by the chain. -/
def CrossPlatformUbiquity (platforms : List Platform) (chain : List Cert) : Nat :=
  let root := chain.getLastD dummyCert
  (platforms.filter (fun p =>
      decide (root.signature ∈ p.trustStore
        ∧ p.minHashUbiquity ≤ ChainHashUbiquity chain
        ∧ p.minKeyAlgoUbiquity ≤ ChainKeyAlgoUbiquity chain))).foldl
    (fun acc p => acc + p.weight) 0

/-- Modelled from the spec: `UntrustedPlatforms(root)` lists the names of
all platforms whose trust store lacks the root. -/
def UntrustedPlatforms (platforms : List Platform) (root : Cert) : List String :=
  (platforms.filter (fun p => decide (root.signature ∉ p.trustStore))).map (·.name)

/-- Modelled from the spec: `ubiquity.Filter(chains, cmp)` — the comparator
assigns an integer rank and the filter retains, in order, exactly the chains
whose rank equals the maximum over the input. -/
def Filter (chains : List (List Cert)) (rank : List Cert → Int) : List (List Cert) :=
  match chains with
  | [] => []
  | c :: cs =>
      let m := (cs.map rank).foldl max (rank c)
      (c :: cs).filter (fun x => decide (rank x = m))

/-- Modelled from the spec: `CompareChainLength` — shorter chains win, so
the rank is the negated length. -/
def CompareChainLength (chain : List Cert) : Int := -(chain.length : Int)

/-- Modelled from the spec: `CompareChainExpiry` — later chain expiry wins. -/
def CompareChainExpiry (chain : List Cert) : Int := ChainExpiry chain

/-- Modelled from the spec: `CompareChainCryptoSuite` — the sum of the
chain's hash and key-algorithm priorities wins. -/
def CompareChainCryptoSuite (chain : List Cert) : Int :=
  (HashPriority chain + KeyAlgoPriority chain : Nat)

/-- Modelled from the spec: `ComparePlatformUbiquity` ranks by
cross-platform ubiquity. -/
def ComparePlatformUbiquity (platforms : List Platform) (chain : List Cert) : Int :=
  (CrossPlatformUbiquity platforms chain : Nat)

/-- Modelled from the spec: `CompareChainHashUbiquity` ranks by the chain's
hash ubiquity. -/
def CompareChainHashUbiquity (chain : List Cert) : Int :=
  (ChainHashUbiquity chain : Nat)

/-- Modelled from the spec: `CompareChainKeyAlgoUbiquity` ranks by the
chain's key-algorithm ubiquity. -/
def CompareChainKeyAlgoUbiquity (chain : List Cert) : Int :=
  (ChainKeyAlgoUbiquity chain : Nat)

/-- Modelled from the spec (§9 note): `CompareExpiryUbiquity` prefers chains
whose intermediates (chain minus leaf and root) have the latest minimum
`NotAfter`. -/
def CompareExpiryUbiquity (chain : List Cert) : Int :=
  ChainExpiry ((chain.drop 1).dropLast)

/-- `optimalChains` from bundler.go lines 632-641: shortest, then longest
expiry, then strongest crypto suite. -/
def optimalChains (chains : List (List Cert)) : List (List Cert) :=
  let chains := Filter chains CompareChainLength
  let chains := Filter chains CompareChainExpiry
  let chains := Filter chains CompareChainCryptoSuite
  chains

/-- `ubiquitousChains` from bundler.go lines 644-657: platform ubiquity,
length, hash ubiquity, key-algorithm ubiquity, expiry ubiquity, then the
optimal cascade as final tie break. -/
def ubiquitousChains (platforms : List Platform) (chains : List (List Cert)) :
    List (List Cert) :=
  let chains := Filter chains (ComparePlatformUbiquity platforms)
  let chains := Filter chains CompareChainLength
  let chains := Filter chains CompareChainHashUbiquity
  let chains := Filter chains CompareChainKeyAlgoUbiquity
  let chains := Filter chains CompareExpiryUbiquity
  optimalChains chains

/-- The `Optimal` flavor constant (a Go string). -/
def Optimal : String := "optimal"

/-- The `Ubiquitous` flavor constant (a Go string). -/
def Ubiquitous : String := "ubiquitous"

/-- The flavor switch of `Bundle` (bundler.go lines 521-528); the default
case selects the ubiquitous cascade. -/
def selectChains (platforms : List Platform) (flavor : String)
    (chains : List (List Cert)) : List (List Cert) :=
  if flavor = Optimal then optimalChains chains
  else if flavor = Ubiquitous then ubiquitousChains platforms chains
  else ubiquitousChains platforms chains

/-- `bundle.Chain` as computed at bundler.go line 530: the first surviving
chain of the flavor cascade with its trailing root removed. -/
def bundleChain (platforms : List Platform) (flavor : String)
    (chains : List (List Cert)) : List Cert :=
  ((selectChains platforms flavor chains).headD []).dropLast

/-- Modelled from the spec: the `BundleExpiringBit` status bit (the
`errors` package is not in the sources; the two bits are distinct powers of
two). -/
def bundleExpiringBit : Nat := 1

/-- Modelled from the spec: the `BundleNotUbiquitousBit` status bit. -/
def bundleNotUbiquitousBit : Nat := 2

/-- Loop body of `checkExpiringCerts`, carrying the running index. -/
def checkExpiringCertsAux (now : Int) : Nat → List Cert → List Nat
  | _, [] => []
  | i, c :: cs =>
      if c.notAfter - now < 720 * 3600 then
        i :: checkExpiringCertsAux now (i + 1) cs
      else
        checkExpiringCertsAux now (i + 1) cs

/-- `checkExpiringCerts` from bundler.go lines 576-585: indices of the
chain certificates whose `NotAfter` minus now is below 720 hours. -/
def checkExpiringCerts (now : Int) (chain : List Cert) : List Nat :=
  checkExpiringCertsAux now 0 chain

/-- An uppercase hexadecimal digit. -/
def hexDigitChar (n : Nat) : Char :=
  if n < 10 then Char.ofNat (48 + n) else Char.ofNat (55 + n)

/-- One byte rendered as two uppercase hexadecimal digits. -/
def byteHex (b : Nat) : String :=
  String.mk [hexDigitChar (b / 16), hexDigitChar (b % 16)]

/-- Go's Sprintf with the uppercase hexadecimal verb applied to a byte
slice: each byte becomes two uppercase hexadecimal digits. -/
def hexUpper (bs : List Nat) : String :=
  String.join (bs.map byteHex)

/-- `getSKIs` from bundler.go lines 587-594: the uppercase-hex subject key
id of the chain certificate at each listed index. -/
def getSKIs (chain : List Cert) (indices : List Nat) : List String :=
  indices.map (fun i => hexUpper ((chain.getD i dummyCert).subjectKeyId))

/-- `expirationWarning` from bundler.go lines 596-613. -/
def expirationWarning (expiringIntermediates : List Nat) : String :=
  if expiringIntermediates.length = 0 then ""
  else
    let ret := expiringWarningStub
    let ret :=
      if expiringIntermediates.length > 1 then ret ++ "The expiring certs are"
      else ret ++ "The expiring cert is"
    let ret := expiringIntermediates.foldl
      (fun r index => r ++ " #" ++ toString (index + 1)) ret
    ret ++ " in the chain."

/-- Loop body of `untrustedPlatformsWarning`, carrying the running index. -/
def untrustedWarnAux : Nat → List String → String
  | _, [] => ""
  | i, p :: ps =>
      (if i > 0 then "," else "") ++ " " ++ p ++ untrustedWarnAux (i + 1) ps

/-- `untrustedPlatformsWarning` from bundler.go lines 615-629. -/
def untrustedPlatformsWarning (platforms : List String) : String :=
  if platforms.length = 0 then ""
  else untrustedWarningStub ++ untrustedWarnAux 0 platforms ++ "."

/-- The fields of `BundleStatus` synthesised by `Bundle`. -/
structure BundleStatus where
  code : Nat
  messages : List String
  expiringSKIs : List String
  untrusted : List String
  deriving DecidableEq

/-- The status synthesis of `Bundle` (bundler.go lines 530-555): the output
chain is the matched chain minus its root; the expiring bit is set when
some output certificate expires within 720 hours; the not-ubiquitous bit is
set when the matched chain's hash ubiquity is at most `SHA2Ubiquity` and
again when some platform distrusts the matched chain's root. -/
def statusInfo (now : Int) (platforms : List Platform) (matched : List Cert) :
    BundleStatus :=
  let chain := matched.dropLast
  let expiringCerts := checkExpiringCerts now chain
  let code1 := if expiringCerts.length > 0 then 0 ||| bundleExpiringBit else 0
  let msgs1 :=
    if expiringCerts.length > 0 then [expirationWarning expiringCerts] else []
  let code2 :=
    if ChainHashUbiquity matched ≤ SHA2Ubiquity then
      code1 ||| bundleNotUbiquitousBit
    else code1
  let msgs2 :=
    if ChainHashUbiquity matched ≤ SHA2Ubiquity then msgs1 ++ [sha2Warning]
    else msgs1
  let root := matched.getLastD dummyCert
  let untrusted := UntrustedPlatforms platforms root
  let code3 :=
    if untrusted.length > 0 then code2 ||| bundleNotUbiquitousBit else code2
  let msgs3 :=
    if untrusted.length > 0 then msgs2 ++ [untrustedPlatformsWarning untrusted]
    else msgs2
  { code := code3, messages := msgs3,
    expiringSKIs := getSKIs chain expiringCerts, untrusted := untrusted }

/-- Signature comparison loop of the rebundle check (bundler.go lines
561-569): walks the output chain and the input certificates in step and
reports the first signature difference. -/
def rebundledAux : List Cert → List Cert → Bool
  | c :: cs, n :: ns =>
      if c.signature ≠ n.signature then true else rebundledAux cs ns
  | _, _ => false

/-- The rebundle check of `Bundle` (bundler.go lines 557-569): the flag is
true when the output chain's length differs from the input's, or some
output certificate's signature differs from the input certificate's at the
same index. -/
def isRebundled (certs : List Cert) (chain : List Cert) : Bool :=
  if chain.length ≠ certs.length then true else rebundledAux certs chain

/-- The key/certificate pairing check of `Bundle` (bundler.go lines
450-478): a switch on the leaf's public key algorithm, a runtime type test
on the supplied key, and a comparison of the RSA modulus or the ECDSA
public point X coordinate.  `none` means the check passes. -/
def keyPairCheck (cert : Cert) (key : Option PrivKey) : Option BundlerErr :=
  match key with
  | some k =>
      match cert.pub with
      | PubKey.rsa n =>
          match k with
          | PrivKey.rsaKey m =>
              if n ≠ m then some BundlerErr.keyMismatch else none
          | _ => some BundlerErr.keyMismatch
      | PubKey.ecdsa _ x =>
          match k with
          | PrivKey.ecdsaKey y =>
              if x ≠ y then some BundlerErr.keyMismatch else none
          | _ => some BundlerErr.keyMismatch
      | PubKey.otherKey => some BundlerErr.notRSAOrECC
  | none =>
      match cert.pub with
      | PubKey.rsa _ => none
      | PubKey.ecdsa _ _ => none
      | PubKey.otherKey => some BundlerErr.notRSAOrECC

/-- The entry of `Bundle` (bundler.go lines 444-447).  Line 444 logs
`certs[0].Subject`, evaluating `certs[0]` before the emptiness guard of
lines 445-447; indexing an empty Go slice panics, modelled as `none`.
`some none` models the guard returning a nil bundle and nil error;
`some (some c)` models falling through with leaf `c`. -/
def bundleEntry (certs : List Cert) : Option (Option Cert) :=
  match certs.get? 0 with
  | none => none
  | some c0 => if certs.length = 0 then some none else some (some c0)

/-- `isSelfSigned` from bundler.go line 297: whether the certificate
verifies under its own signature. -/
def isSelfSigned (c : Cert) : Bool := c.selfSigned

/-- `isChainRootNode` from bundler.go lines 301-306. -/
def isChainRootNode (c : Cert) : Bool := isSelfSigned c

/-- Loop body of `verifyChain` (bundler.go lines 308-352).  `isTop` records
whether the current element is the first of the original chain (the Go test
`len(chain) == len(vchain)`).  The verifier call `cert.Cert.Verify` is the
oracle `verify`, which sees the current bundler state. -/
def verifyChainAux (verify : Cert → BundlerState → Bool) (b : BundlerState)
    (isTop : Bool) : List FetchedIntermediate → Bool × BundlerState
  | [] => (true, b)
  | fi :: rest =>
      if fi.cert.signature ∈ b.knownIssuers then
        verifyChainAux verify b false rest
      else if verify fi.cert b then
        if isTop && isChainRootNode fi.cert then
          verifyChainAux verify b false rest
        else
          let b1 := { b with intermediatePool := b.intermediatePool ++ [fi.cert] }
          if fi.name = "" then
            verifyChainAux verify b1 false rest
          else
            let b2 := { b1 with
              knownIssuers := b1.knownIssuers ++ [fi.cert.signature],
              stash := b1.stash ++ [fi.name] }
            verifyChainAux verify b2 false rest
      else
        (false, b)

/-- `verifyChain` from bundler.go lines 308-352. -/
def verifyChain (verify : Cert → BundlerState → Bool) (b : BundlerState)
    (chain : List FetchedIntermediate) : Bool × BundlerState :=
  verifyChainAux verify b true chain

/-- The sanitised common name used for stash filenames (bundler.go lines
386-387): the certificate's CN with every period and space removed. -/
def sanitizeName (s : String) : String :=
  String.mk (s.data.filter (fun ch => !(ch == Char.ofNat 46 || ch == Char.ofNat 32)))

/-- The chain-building loop of `fetchIntermediates` (bundler.go lines
380-392): certificates are prepended, so the result is the input reversed;
every certificate but the first gets the sanitised-CN filename. -/
def initialChainAux : Nat → List Cert → List FetchedIntermediate →
    List FetchedIntermediate
  | _, [], chain => chain
  | i, c :: cs, chain =>
      let name :=
        if i > 0 then sanitizeName c.subjectCommonName ++ ".crt" else ""
      initialChainAux (i + 1) cs ([⟨c, name⟩] ++ chain)

/-- The reversed partial chain seeded by `fetchIntermediates`. -/
def initialChain (certs : List Cert) : List FetchedIntermediate :=
  initialChainAux 0 certs []

/-- The external world of `fetchIntermediates`: the x509 verifier oracle,
the AIA fetch oracle (`none` models any network or parse failure), and the
finite set of signatures that fetched certificates can carry. -/
structure FetchEnv where
  verify : Cert → BundlerState → Bool
  fetch : String → Option FetchedIntermediate
  sigUniverse : List String

/-- The AIA scan of one loop iteration (bundler.go lines 411-429): the
first issuer URL that is unseen, fetches successfully, and yields a
certificate with an unseen signature. -/
def findNewIssuer (env : FetchEnv) (seen : List String) :
    List String → Option (String × FetchedIntermediate)
  | [] => none
  | url :: urls =>
      if url ∈ seen then findNewIssuer env seen urls
      else
        match env.fetch url with
        | none => findNewIssuer env seen urls
        | some crt =>
            if crt.cert.signature ∈ seen then findNewIssuer env seen urls
            else some (url, crt)

/-- How many universe signatures are not yet in the `seen` set. -/
def unseenCount (sigUniv seen : List String) : Nat :=
  (sigUniv.filter (fun s => decide (s ∉ seen))).length

/-- Fuel that provably suffices for the DFS loop: two units per unseen
signature plus one per chain element, plus one for the final exit. -/
def loopFuel (env : FetchEnv) (seen : List String)
    (chain : List FetchedIntermediate) : Nat :=
  2 * unseenCount env.sigUniverse seen + chain.length + 1

/-- The DFS loop of `fetchIntermediates` (bundler.go lines 397-436),
written with explicit fuel; `none` models fuel exhaustion and never occurs
for sufficient fuel.  On exit it returns the found-chain count and the
final bundler state.  Each iteration verifies the whole chain; on success
the count rises and the top is popped, otherwise the AIA scan either
prepends one fresh certificate (marking its URL and signature seen) or the
top is popped. -/
def fetchLoopFuel (env : FetchEnv) : Nat → BundlerState → List String → Nat →
    List FetchedIntermediate → Option (Nat × BundlerState)
  | 0, _, _, _, _ => none
  | fuel + 1, b, seen, found, chain =>
      match chain with
      | [] => some (found, b)
      | current :: rest =>
          let vres := verifyChain env.verify b (current :: rest)
          if vres.1 then
            fetchLoopFuel env fuel vres.2 seen (found + 1) rest
          else
            match findNewIssuer env seen current.cert.issuingCertificateURL with
            | some (url, crt) =>
                fetchLoopFuel env fuel vres.2
                  (crt.cert.signature :: url :: seen) found
                  (crt :: current :: rest)
            | none => fetchLoopFuel env fuel vres.2 seen found rest

/-- `fetchIntermediates` from bundler.go lines 362-437: seed the seen set
with the input signatures, build the reversed chain, run the DFS loop, and
return `UnknownAuthorityError` exactly when no found chain was counted.
The pair's second component reports the found-chain count; the outer
`Option` is the loop fuel bound, proven unreachable below. -/
def fetchIntermediates (env : FetchEnv) (b : BundlerState)
    (certs : List Cert) : Option (Except BundlerErr BundlerState × Nat) :=
  let chain := initialChain certs
  let seen := certs.map (·.signature)
  match fetchLoopFuel env (loopFuel env seen chain) b seen 0 chain with
  | none => none
  | some (found, b2) =>
      some (if found = 0 then Except.error BundlerErr.unknownAuthority
            else Except.ok b2, found)

/-- A concrete SHA-2 signed RSA leaf certificate used in counterexamples
and witnesses. -/
def exLeaf : Cert :=
  { signature := "leafsig", notAfter := 10000000, subjectKeyId := [171, 1],
    pub := PubKey.rsa 2048, sigHash := HashAlgo.sha2,
    issuingCertificateURL := [], subjectCommonName := "leaf.example",
    selfSigned := false }

/-- A concrete SHA-2 signed self-signed root certificate. -/
def exRoot : Cert :=
  { signature := "rootsig", notAfter := 10000000, subjectKeyId := [205],
    pub := PubKey.rsa 2048, sigHash := HashAlgo.sha2,
    issuingCertificateURL := [], subjectCommonName := "root.example",
    selfSigned := true }

/-- A concrete certificate that expires 1000 seconds after time zero. -/
def certExp : Cert :=
  { signature := "expsig", notAfter := 1000, subjectKeyId := [15, 160],
    pub := PubKey.rsa 2048, sigHash := HashAlgo.sha2,
    issuingCertificateURL := [], subjectCommonName := "exp.example",
    selfSigned := false }

/-- A concrete platform whose trust store holds `exRoot`'s signature. -/
def exPlatform : Platform :=
  { name := "AllTrust", weight := 100, minHashUbiquity := 0,
    minKeyAlgoUbiquity := 0, trustStore := ["rootsig"] }

/-- A bundler state with empty pools. -/
def emptyBundler : BundlerState :=
  { rootPool := [], intermediatePool := [], knownIssuers := [], stash := [] }

/-- A bundler state that already knows `exLeaf`'s signature. -/
def knownBundler : BundlerState :=
  { rootPool := [], intermediatePool := [], knownIssuers := ["leafsig"],
    stash := [] }

/-- A fetch environment whose verifier always refuses and whose fetcher
always fails. -/
def trivialEnv : FetchEnv :=
  { verify := fun _ _ => false, fetch := fun _ => none, sigUniverse := [] }

/-- A certificate whose public key algorithm is RSA with modulus 2048,
for the pairing-check witness. -/
def exRsaCert : Cert := { dummyCert with pub := PubKey.rsa 2048 }

/-! ### Helper lemmas -/

/-- The signature-comparison loop reports a difference exactly when the two
equal-length lists disagree at some index. -/
theorem rebundledAux_eq_true_iff (cs ns : List Cert) (hlen : cs.length = ns.length) :
    rebundledAux cs ns = true ↔
      ∃ i, i < ns.length ∧
        (ns.getD i dummyCert).signature ≠ (cs.getD i dummyCert).signature := by
  induction cs generalizing ns with
  | nil =>
      cases ns with
      | nil => simp [rebundledAux]
      | cons n ns => simp at hlen
  | cons c cs ih =>
      cases ns with
      | nil => simp at hlen
      | cons n ns =>
          simp only [List.length_cons, Nat.add_right_cancel_iff] at hlen
          by_cases h : c.signature = n.signature
          · rw [show rebundledAux (c :: cs) (n :: ns) = rebundledAux cs ns by
              simp [rebundledAux, h]]
            rw [ih ns hlen]
            constructor
            · rintro ⟨i, hi, hne⟩
              exact ⟨i + 1, by simpa using hi, by simpa using hne⟩
            · rintro ⟨i, hi, hne⟩
              cases i with
              | zero => simp [h] at hne
              | succ j =>
                  exact ⟨j, by simpa using hi, by simpa using hne⟩
          · constructor
            · intro _
              exact ⟨0, by simp, by simpa using fun hh => h hh.symm⟩
            · intro _
              simp [rebundledAux, h]

/-- A left fold of `max` is either its seed or one of the list members. -/
theorem foldl_max_mem (l : List Int) (a : Int) :
    l.foldl max a = a ∨ l.foldl max a ∈ l := by
  induction l generalizing a with
  | nil => left; rfl
  | cons x xs ih =>
      rcases ih (max a x) with h | h
      · rcases max_choice a x with h2 | h2
        · left; rw [List.foldl_cons, h, h2]
        · right
          rw [List.foldl_cons, h, h2]
          exact List.mem_cons_self x xs
      · right
        exact List.mem_cons_of_mem x h

/-- The spec-modelled `Filter` only keeps chains of its input. -/
theorem Filter_mem_of_mem (chains : List (List Cert))
    (rank : List Cert → Int) (x : List Cert) (hx : x ∈ Filter chains rank) :
    x ∈ chains := by
  cases chains with
  | nil => simp [Filter] at hx
  | cons c cs =>
      simp only [Filter] at hx
      exact List.mem_of_mem_filter hx

/-- The spec-modelled `Filter` never empties a non-empty input: the chain
attaining the maximum rank survives. -/
theorem Filter_ne_nil (chains : List (List Cert)) (rank : List Cert → Int)
    (h : chains ≠ []) : Filter chains rank ≠ [] := by
  cases chains with
  | nil => exact absurd rfl h
  | cons c cs =>
      have hex : ∃ y, y ∈ c :: cs ∧
          rank y = (cs.map rank).foldl max (rank c) := by
        rcases foldl_max_mem (cs.map rank) (rank c) with h1 | h1
        · exact ⟨c, List.mem_cons_self c cs, h1.symm⟩
        · rcases List.mem_map.1 h1 with ⟨y, hy, hyr⟩
          exact ⟨y, List.mem_cons_of_mem c hy, hyr⟩
      rcases hex with ⟨y, hy, hyr⟩
      have hmem : y ∈ Filter (c :: cs) rank := by
        simp only [Filter]
        exact List.mem_filter.2 ⟨hy, by simp [hyr]⟩
      exact List.ne_nil_of_mem hmem

/-- The optimal cascade only keeps chains of its input. -/
theorem optimalChains_mem_of_mem (chains : List (List Cert)) (x : List Cert)
    (hx : x ∈ optimalChains chains) : x ∈ chains :=
  Filter_mem_of_mem _ _ _
    (Filter_mem_of_mem _ _ _ (Filter_mem_of_mem _ _ _ hx))

/-- The optimal cascade never empties a non-empty input. -/
theorem optimalChains_ne_nil (chains : List (List Cert)) (h : chains ≠ []) :
    optimalChains chains ≠ [] :=
  Filter_ne_nil _ _ (Filter_ne_nil _ _ (Filter_ne_nil _ _ h))

/-- The ubiquitous cascade only keeps chains of its input. -/
theorem ubiquitousChains_mem_of_mem (platforms : List Platform)
    (chains : List (List Cert)) (x : List Cert)
    (hx : x ∈ ubiquitousChains platforms chains) : x ∈ chains :=
  Filter_mem_of_mem _ _ _
    (Filter_mem_of_mem _ _ _
      (Filter_mem_of_mem _ _ _
        (Filter_mem_of_mem _ _ _
          (Filter_mem_of_mem _ _ _ (optimalChains_mem_of_mem _ _ hx)))))

/-- The ubiquitous cascade never empties a non-empty input. -/
theorem ubiquitousChains_ne_nil (platforms : List Platform)
    (chains : List (List Cert)) (h : chains ≠ []) :
    ubiquitousChains platforms chains ≠ [] :=
  optimalChains_ne_nil _
    (Filter_ne_nil _ _
      (Filter_ne_nil _ _
        (Filter_ne_nil _ _ (Filter_ne_nil _ _ (Filter_ne_nil _ _ h)))))

/-- The flavor switch only keeps chains of its input. -/
theorem selectChains_mem_of_mem (platforms : List Platform) (flavor : String)
    (chains : List (List Cert)) (x : List Cert)
    (hx : x ∈ selectChains platforms flavor chains) : x ∈ chains := by
  unfold selectChains at hx
  split at hx
  · exact optimalChains_mem_of_mem _ _ hx
  · split at hx
    · exact ubiquitousChains_mem_of_mem _ _ _ hx
    · exact ubiquitousChains_mem_of_mem _ _ _ hx

/-- The flavor switch never empties a non-empty input. -/
theorem selectChains_ne_nil (platforms : List Platform) (flavor : String)
    (chains : List (List Cert)) (h : chains ≠ []) :
    selectChains platforms flavor chains ≠ [] := by
  unfold selectChains
  split
  · exact optimalChains_ne_nil _ h
  · split
    · exact ubiquitousChains_ne_nil _ _ h
    · exact ubiquitousChains_ne_nil _ _ h

/-- The head-with-default of a non-empty list is a member. -/
theorem headD_mem_of_ne_nil {α : Type} (l : List α) (d : α) (h : l ≠ []) :
    l.headD d ∈ l := by
  cases l with
  | nil => exact absurd rfl h
  | cons a as => simp

/-- Membership in the expiring-index loop: the collected indices are
exactly the running offset plus the positions of the certificates whose
`NotAfter` lies within the 720-hour window. -/
theorem mem_checkExpiringCertsAux (now : Int) (cs : List Cert) :
    ∀ (k i : Nat), i ∈ checkExpiringCertsAux now k cs ↔
      ∃ j, j < cs.length ∧ i = k + j ∧
        (cs.getD j dummyCert).notAfter - now < 720 * 3600 := by
  induction cs with
  | nil => intro k i; simp [checkExpiringCertsAux]
  | cons c cs ih =>
      intro k i
      unfold checkExpiringCertsAux
      by_cases hc : c.notAfter - now < 720 * 3600
      · rw [if_pos hc]
        constructor
        · intro hi
          rcases List.mem_cons.1 hi with h | h
          · exact ⟨0, by simp, by simpa using h, by simpa using hc⟩
          · rcases (ih (k + 1) i).1 h with ⟨j, hj, hij, hcond⟩
            exact ⟨j + 1, by simpa using hj, by omega, by simpa using hcond⟩
        · rintro ⟨j, hj, hij, hcond⟩
          cases j with
          | zero => subst hij; simp
          | succ j =>
              refine List.mem_cons.2 (Or.inr ((ih (k + 1) i).2 ?_))
              exact ⟨j, by simpa using hj, by omega, by simpa using hcond⟩
      · rw [if_neg hc]
        rw [ih (k + 1) i]
        constructor
        · rintro ⟨j, hj, hij, hcond⟩
          exact ⟨j + 1, by simpa using hj, by omega, by simpa using hcond⟩
        · rintro ⟨j, hj, hij, hcond⟩
          cases j with
          | zero => exact absurd (by simpa using hcond) hc
          | succ j =>
              exact ⟨j, by simpa using hj, by omega, by simpa using hcond⟩

/-- The expiring-index loop yields something exactly when some certificate
of the suffix is inside the 720-hour window. -/
theorem checkExpiringCertsAux_ne_nil_iff (now : Int) (cs : List Cert) :
    ∀ k, checkExpiringCertsAux now k cs ≠ [] ↔
      ∃ c ∈ cs, c.notAfter - now < 720 * 3600 := by
  induction cs with
  | nil => intro k; simp [checkExpiringCertsAux]
  | cons c cs ih =>
      intro k
      unfold checkExpiringCertsAux
      by_cases hc : c.notAfter - now < 720 * 3600
      · rw [if_pos hc]
        exact ⟨fun _ => ⟨c, List.mem_cons_self c cs, hc⟩,
          fun _ => List.cons_ne_nil _ _⟩
      · rw [if_neg hc]
        rw [ih (k + 1)]
        constructor
        · rintro ⟨d, hd, hcond⟩
          exact ⟨d, List.mem_cons_of_mem c hd, hcond⟩
        · rintro ⟨d, hd, hcond⟩
          rcases List.mem_cons.1 hd with h | h
          · exact absurd (h ▸ hcond) hc
          · exact ⟨d, h, hcond⟩

/-- Looking the expiring indices back up in the chain yields exactly the
expiring certificates, in chain order. -/
theorem map_getD_checkExpiringCertsAux (now : Int) (cs : List Cert) :
    ∀ (k : Nat) (big : List Cert),
      (∀ j, j < cs.length → big.getD (k + j) dummyCert = cs.getD j dummyCert) →
      (checkExpiringCertsAux now k cs).map
          (fun i => hexUpper ((big.getD i dummyCert).subjectKeyId)) =
        (cs.filter (fun c => decide (c.notAfter - now < 720 * 3600))).map
          (fun c => hexUpper c.subjectKeyId) := by
  induction cs with
  | nil => intro k big _; simp [checkExpiringCertsAux]
  | cons c cs ih =>
      intro k big hbig
      have h0 : big.getD k dummyCert = c := by
        have := hbig 0 (by simp)
        simpa using this
      have hshift : ∀ j, j < cs.length →
          big.getD (k + 1 + j) dummyCert = cs.getD j dummyCert := by
        intro j hj
        have := hbig (j + 1) (by simpa using hj)
        rw [show k + (j + 1) = k + 1 + j by omega] at this
        simpa using this
      unfold checkExpiringCertsAux
      by_cases hc : c.notAfter - now < 720 * 3600
      · rw [if_pos hc]
        simp only [List.map_cons, h0]
        rw [ih (k + 1) big hshift]
        rw [List.filter_cons, if_pos (by simpa using hc)]
        simp
      · rw [if_neg hc]
        rw [ih (k + 1) big hshift]
        rw [List.filter_cons, if_neg (by simpa using hc)]

/-- A left fold accumulating position markers equals the accumulator
followed by the concatenation of the markers. -/
theorem foldl_marker_append (l : List Nat) : ∀ a : String,
    l.foldl (fun r index => r ++ " #" ++ toString (index + 1)) a =
      a ++ (l.map (fun i => " #" ++ toString (i + 1))).foldr (· ++ ·) "" := by
  induction l with
  | nil => intro a; simp [String.append_empty]
  | cons x xs ih =>
      intro a
      simp only [List.foldl_cons, List.map_cons, List.foldr_cons]
      rw [ih]
      simp [String.append_assoc]

/-! ### Claim theorems -/

/-- Claim C3: the claim asserts that `Bundle` called with an empty
certificate list returns a nil bundle and nil error through its emptiness
guard without first accessing element 0.  The code evaluates
`certs[0].Subject` in the log call at line 444 before the guard at lines
445-447, so on an empty list it panics (modelled as `none`) and the guard
is never reached. -/
theorem bundle_empty_input_panics : bundleEntry [] = none := rfl

/-- Claim C4: the rebundle flag is true exactly when the output chain's
length differs from the number of input certificates, or some output
certificate's signature differs from the input certificate's signature at
the same index. -/
theorem isRebundled_iff (certs chain : List Cert) :
    isRebundled certs chain = true ↔
      chain.length ≠ certs.length ∨
        ∃ i, i < chain.length ∧
          (chain.getD i dummyCert).signature ≠ (certs.getD i dummyCert).signature := by
  unfold isRebundled
  by_cases hl : chain.length = certs.length
  · rw [if_neg (by simp [hl])]
    rw [rebundledAux_eq_true_iff certs chain hl.symm]
    simp [hl]
  · simp [hl]

/-- Claim C5: with a supplied key, an RSA leaf rejects a non-RSA key and an
RSA key with a different modulus with `KeyMismatch`; an ECDSA leaf rejects
a non-ECDSA key and an ECDSA key with a different public point X coordinate
with `KeyMismatch`; a leaf whose public key algorithm is neither RSA nor
ECDSA fails with `NotRSAOrECC` whether or not a key is supplied. -/
theorem keyPairCheck_spec (c : Cert) (k : PrivKey) :
    (∀ n, c.pub = PubKey.rsa n →
        ((∀ m, k ≠ PrivKey.rsaKey m) →
            keyPairCheck c (some k) = some BundlerErr.keyMismatch) ∧
        (∀ m, k = PrivKey.rsaKey m → m ≠ n →
            keyPairCheck c (some k) = some BundlerErr.keyMismatch))
    ∧ (∀ cu x, c.pub = PubKey.ecdsa cu x →
        ((∀ y, k ≠ PrivKey.ecdsaKey y) →
            keyPairCheck c (some k) = some BundlerErr.keyMismatch) ∧
        (∀ y, k = PrivKey.ecdsaKey y → y ≠ x →
            keyPairCheck c (some k) = some BundlerErr.keyMismatch))
    ∧ (c.pub = PubKey.otherKey →
        keyPairCheck c (some k) = some BundlerErr.notRSAOrECC ∧
        keyPairCheck c none = some BundlerErr.notRSAOrECC) := by
  refine ⟨?_, ?_, ?_⟩
  · intro n hpub
    constructor
    · intro hnot
      cases k with
      | rsaKey m => exact absurd rfl (hnot m)
      | ecdsaKey y => simp [keyPairCheck, hpub]
      | otherPriv => simp [keyPairCheck, hpub]
    · intro m hk hne
      subst hk
      simp [keyPairCheck, hpub, Ne.symm hne]
  · intro cu x hpub
    constructor
    · intro hnot
      cases k with
      | rsaKey m => simp [keyPairCheck, hpub]
      | ecdsaKey y => exact absurd rfl (hnot y)
      | otherPriv => simp [keyPairCheck, hpub]
    · intro y hk hne
      subst hk
      simp [keyPairCheck, hpub, Ne.symm hne]
  · intro hpub
    exact ⟨by simp [keyPairCheck, hpub], by simp [keyPairCheck, hpub]⟩

/-- Witness for C5: an RSA-2048 leaf paired with an ECDSA key fails with
`KeyMismatch`. -/
theorem keyPairCheck_spec_witness :
    keyPairCheck exRsaCert (some (PrivKey.ecdsaKey 1)) =
      some BundlerErr.keyMismatch :=
  ((keyPairCheck_spec exRsaCert (PrivKey.ecdsaKey 1)).1 2048 rfl).1
    (fun _ h => PrivKey.noConfusion h)

/-- Claim C7: the Optimal flavor applies exactly the filters
`CompareChainLength`, `CompareChainExpiry`, `CompareChainCryptoSuite` in
that order, and the Ubiquitous flavor applies `ComparePlatformUbiquity`,
`CompareChainLength`, `CompareChainHashUbiquity`,
`CompareChainKeyAlgoUbiquity`, `CompareExpiryUbiquity` and then the
Optimal cascade, in that order, for every input list of chains. -/
theorem flavor_cascade_order (platforms : List Platform)
    (chains : List (List Cert)) :
    optimalChains chains =
      [CompareChainLength, CompareChainExpiry,
        CompareChainCryptoSuite].foldl Filter chains
    ∧ ubiquitousChains platforms chains =
      [ComparePlatformUbiquity platforms, CompareChainLength,
        CompareChainHashUbiquity, CompareChainKeyAlgoUbiquity,
        CompareExpiryUbiquity, CompareChainLength, CompareChainExpiry,
        CompareChainCryptoSuite].foldl Filter chains :=
  ⟨rfl, rfl⟩

/-- Counterexample to claim C1 as stated: a chain whose two members are
both SHA-2 signed and whose root every platform trusts nevertheless gets
the not-ubiquitous status bit, because `ChainHashUbiquity ≤ SHA2Ubiquity`
holds for every chain. -/
theorem notUbiquitous_bit_cex :
    ((statusInfo 0 [exPlatform] [exLeaf, exRoot]).code &&&
        bundleNotUbiquitousBit ≠ 0)
    ∧ (∀ c ∈ [exLeaf, exRoot], c.sigHash ≠ HashAlgo.sha1)
    ∧ UntrustedPlatforms [exPlatform]
        ([exLeaf, exRoot].getLastD dummyCert) = [] := by
  refine ⟨by decide, by decide, by decide⟩

/-- Claim C1 (amended): the not-ubiquitous status bit is set if and only if
the matched chain's hash ubiquity is at most `SHA2Ubiquity` — which holds
for every chain, since no hash ubiquity rank exceeds `SHA2Ubiquity` — or
some platform distrusts the chain's root. -/
theorem notUbiquitous_bit_iff (now : Int) (platforms : List Platform)
    (matched : List Cert) :
    ((statusInfo now platforms matched).code &&& bundleNotUbiquitousBit ≠ 0) ↔
      (ChainHashUbiquity matched ≤ SHA2Ubiquity ∨
        UntrustedPlatforms platforms (matched.getLastD dummyCert) ≠ []) := by
  have hlen : ∀ l : List String, l.length > 0 ↔ l ≠ [] := by
    intro l; cases l <;> simp
  unfold statusInfo
  by_cases h1 : (checkExpiringCerts now matched.dropLast).length > 0 <;>
    by_cases h2 : ChainHashUbiquity matched ≤ SHA2Ubiquity <;>
      by_cases h3 :
        (UntrustedPlatforms platforms (matched.getLastD dummyCert)).length > 0 <;>
        simp only [h1, h2, h3, if_true, if_false, ite_true, ite_false,
          if_pos, if_neg, not_false_iff, not_true] <;>
        simp_all [hlen, bundleExpiringBit, bundleNotUbiquitousBit]

/-- Counterexample to claim C2 as stated: a not-yet-known self-signed
certificate at the top of a partial chain that passes verification is NOT
admitted into the intermediate pool — `verifyChain` skips it entirely
(bundler.go lines 324-328), leaving both the pool and the stash unchanged
while still reporting success. -/
theorem selfsigned_top_cex :
    (verifyChain (fun _ _ => true) emptyBundler [⟨exRoot, "root.crt"⟩]).1 = true
    ∧ exRoot ∉ (verifyChain (fun _ _ => true) emptyBundler
        [⟨exRoot, "root.crt"⟩]).2.intermediatePool
    ∧ (verifyChain (fun _ _ => true) emptyBundler
        [⟨exRoot, "root.crt"⟩]).2.stash = [] := by
  refine ⟨by decide, by decide, by decide⟩

/-- Claim C2 (amended): during chain verification, a not-yet-known
self-signed certificate at the top of a partial chain that passes the
verifier is skipped outright: it is neither added to the intermediate pool
nor written to the stash, and verification proceeds with the remaining
elements unchanged. -/
theorem selfsigned_top_skipped (verify : Cert → BundlerState → Bool)
    (b : BundlerState) (fi : FetchedIntermediate)
    (rest : List FetchedIntermediate)
    (hunknown : fi.cert.signature ∉ b.knownIssuers)
    (hss : isChainRootNode fi.cert = true)
    (hverify : verify fi.cert b = true) :
    verifyChain verify b (fi :: rest) = verifyChainAux verify b false rest := by
  unfold verifyChain
  rw [verifyChainAux]
  simp [hunknown, hverify, hss]

/-- Witness for the amended C2: the concrete self-signed root is skipped
and verification succeeds over the empty remainder. -/
theorem selfsigned_top_skipped_witness :
    verifyChain (fun _ _ => true) emptyBundler [⟨exRoot, "root.crt"⟩] =
      verifyChainAux (fun _ _ => true) emptyBundler false [] :=
  selfsigned_top_skipped (fun _ _ => true) emptyBundler ⟨exRoot, "root.crt"⟩ []
    (by decide) (by decide) rfl

/-- Claim C6: the output chain is the first chain surviving the flavor
filter cascade with its final element removed; when every verifier chain
keeps root-pool certificates only in final position, the output chain
therefore contains no certificate of the root pool. -/
theorem bundleChain_no_root (platforms : List Platform) (flavor : String)
    (chains : List (List Cert)) (rootPool : List Cert)
    (hne : chains ≠ [])
    (hshape : ∀ cs ∈ chains, ∀ c ∈ cs.dropLast, c ∉ rootPool) :
    selectChains platforms flavor chains ≠ []
    ∧ (selectChains platforms flavor chains).headD [] ∈ chains
    ∧ bundleChain platforms flavor chains =
        ((selectChains platforms flavor chains).headD []).dropLast
    ∧ ∀ c ∈ bundleChain platforms flavor chains, c ∉ rootPool := by
  have hne2 := selectChains_ne_nil platforms flavor chains hne
  have hhead := headD_mem_of_ne_nil (selectChains platforms flavor chains) [] hne2
  have hmem := selectChains_mem_of_mem platforms flavor chains _ hhead
  refine ⟨hne2, hmem, rfl, ?_⟩
  intro c hc
  exact hshape _ hmem c (by simpa [bundleChain] using hc)

/-- Witness for C6: a single two-certificate chain ending in the root pool
member yields an output chain avoiding the root pool. -/
theorem bundleChain_no_root_witness :
    selectChains [] Optimal [[exLeaf, exRoot]] ≠ []
    ∧ (selectChains [] Optimal [[exLeaf, exRoot]]).headD [] ∈ [[exLeaf, exRoot]]
    ∧ bundleChain [] Optimal [[exLeaf, exRoot]] =
        ((selectChains [] Optimal [[exLeaf, exRoot]]).headD []).dropLast
    ∧ ∀ c ∈ bundleChain [] Optimal [[exLeaf, exRoot]], c ∉ [exRoot] :=
  bundleChain_no_root [] Optimal [[exLeaf, exRoot]] [exRoot] (by decide)
    (by decide)

/-- The expiring status bit is set exactly when the expiring-index list of
the output chain is non-empty. -/
theorem expiring_bit_iff_ne_nil (now : Int) (platforms : List Platform)
    (matched : List Cert) :
    ((statusInfo now platforms matched).code &&& bundleExpiringBit ≠ 0) ↔
      checkExpiringCerts now matched.dropLast ≠ [] := by
  have hlen : ∀ l : List Nat, l.length > 0 ↔ l ≠ [] := by
    intro l; cases l <;> simp
  unfold statusInfo
  by_cases h1 : (checkExpiringCerts now matched.dropLast).length > 0 <;>
    by_cases h2 : ChainHashUbiquity matched ≤ SHA2Ubiquity <;>
      by_cases h3 :
        (UntrustedPlatforms platforms (matched.getLastD dummyCert)).length > 0 <;>
        simp only [h1, h2, h3, if_true, if_false, ite_true, ite_false,
          if_pos, if_neg, not_false_iff, not_true] <;>
        simp_all [hlen, bundleExpiringBit, bundleNotUbiquitousBit]

/-- Claim C8: a certificate of the output chain sets the expiring bit
exactly when its `NotAfter` is within 720 hours of now; the expiring
indices are exactly the positions of those certificates; the warning
message is the stub, the singular/plural header, and the 1-based positions
in order; and the expiring SKIs are the uppercase-hex subject key ids of
exactly those certificates, in chain order. -/
theorem expiring_status_spec (now : Int) (platforms : List Platform)
    (matched : List Cert) :
    (((statusInfo now platforms matched).code &&& bundleExpiringBit ≠ 0) ↔
        ∃ c ∈ matched.dropLast, c.notAfter - now < 720 * 3600)
    ∧ (∀ i, i ∈ checkExpiringCerts now matched.dropLast ↔
        i < matched.dropLast.length ∧
          ((matched.dropLast).getD i dummyCert).notAfter - now < 720 * 3600)
    ∧ (checkExpiringCerts now matched.dropLast ≠ [] →
        expirationWarning (checkExpiringCerts now matched.dropLast) =
          expiringWarningStub
            ++ (if 1 < (checkExpiringCerts now matched.dropLast).length then
                  "The expiring certs are" else "The expiring cert is")
            ++ ((checkExpiringCerts now matched.dropLast).map
                  (fun i => " #" ++ toString (i + 1))).foldr (· ++ ·) ""
            ++ " in the chain.")
    ∧ (statusInfo now platforms matched).expiringSKIs =
        ((matched.dropLast).filter
            (fun c => decide (c.notAfter - now < 720 * 3600))).map
          (fun c => hexUpper c.subjectKeyId) := by
  refine ⟨?_, ?_, ?_, ?_⟩
  · rw [expiring_bit_iff_ne_nil now platforms matched]
    exact checkExpiringCertsAux_ne_nil_iff now matched.dropLast 0
  · intro i
    rw [show checkExpiringCerts now matched.dropLast =
        checkExpiringCertsAux now 0 matched.dropLast from rfl]
    rw [mem_checkExpiringCertsAux now matched.dropLast 0 i]
    constructor
    · rintro ⟨j, hj, hij, hcond⟩
      have : i = j := by omega
      subst this
      exact ⟨hj, hcond⟩
    · rintro ⟨hi, hcond⟩
      exact ⟨i, hi, by omega, hcond⟩
  · intro hne
    unfold expirationWarning
    rw [if_neg (by simpa using hne)]
    simp only [foldl_marker_append]
    by_cases hg : 1 < (checkExpiringCerts now matched.dropLast).length <;>
      simp [hg, String.append_assoc]
  · have hproj : (statusInfo now platforms matched).expiringSKIs =
        getSKIs matched.dropLast (checkExpiringCerts now matched.dropLast) := by
      unfold statusInfo
      by_cases h1 : (checkExpiringCerts now matched.dropLast).length > 0 <;>
        by_cases h2 : ChainHashUbiquity matched ≤ SHA2Ubiquity <;>
          by_cases h3 : (UntrustedPlatforms platforms
              (matched.getLastD dummyCert)).length > 0 <;>
            simp [h1, h2, h3]
    rw [hproj]
    unfold getSKIs
    exact map_getD_checkExpiringCertsAux now matched.dropLast 0 matched.dropLast
      (fun j _ => by simp)

/-- Witness for C8: the concrete chain with one expiring certificate gets
the singular message enumerating position 1. -/
theorem expiring_status_spec_witness :
    checkExpiringCerts 0 ([certExp, exRoot].dropLast) ≠ []
    ∧ expirationWarning (checkExpiringCerts 0 ([certExp, exRoot].dropLast)) =
        expiringWarningStub
          ++ (if 1 < (checkExpiringCerts 0 ([certExp, exRoot].dropLast)).length
                then "The expiring certs are" else "The expiring cert is")
          ++ ((checkExpiringCerts 0 ([certExp, exRoot].dropLast)).map
                (fun i => " #" ++ toString (i + 1))).foldr (· ++ ·) ""
          ++ " in the chain." :=
  ⟨by decide, (expiring_status_spec 0 [] [certExp, exRoot]).2.2.1 (by decide)⟩

/-- A filter with a stronger predicate keeps at most as many elements. -/
theorem filter_length_mono {α : Type} (p q : α → Bool)
    (h : ∀ a, p a = true → q a = true) :
    ∀ l : List α, (l.filter p).length ≤ (l.filter q).length := by
  intro l
  induction l with
  | nil => simp
  | cons x xs ih =>
      rw [List.filter_cons, List.filter_cons]
      by_cases hp : p x = true
      · rw [if_pos hp, if_pos (h x hp)]
        simpa using ih
      · rw [if_neg hp]
        by_cases hq : q x = true
        · rw [if_pos hq]
          simp only [List.length_cons]
          omega
        · rw [if_neg hq]
          exact ih

/-- A filter with a stronger predicate that loses some member keeps
strictly fewer elements. -/
theorem filter_length_lt {α : Type} (p q : α → Bool)
    (h : ∀ a, p a = true → q a = true) :
    ∀ (l : List α) (x : α), x ∈ l → p x = false → q x = true →
      (l.filter p).length < (l.filter q).length := by
  intro l
  induction l with
  | nil => intro x hx _ _; simp at hx
  | cons y ys ih =>
      intro x hx hpx hqx
      rw [List.filter_cons, List.filter_cons]
      rcases List.mem_cons.1 hx with rfl | hx2
      · rw [if_neg (by simp [hpx]), if_pos hqx]
        simp only [List.length_cons]
        exact Nat.lt_succ_of_le (filter_length_mono p q h ys)
      · by_cases hpy : p y = true
        · rw [if_pos hpy, if_pos (h y hpy)]
          simpa using ih x hx2 hpx hqx
        · rw [if_neg hpy]
          by_cases hqy : q y = true
          · rw [if_pos hqy]
            simp only [List.length_cons]
            have := ih x hx2 hpx hqx
            omega
          · rw [if_neg hqy]
            exact ih x hx2 hpx hqx

/-- Growing the seen set never increases the number of unseen universe
signatures. -/
theorem unseen_mono (U s₁ s₂ : List String) (h : ∀ t, t ∈ s₁ → t ∈ s₂) :
    unseenCount U s₂ ≤ unseenCount U s₁ := by
  unfold unseenCount
  refine filter_length_mono _ _ ?_ U
  intro a ha
  simp only [decide_eq_true_eq] at ha ⊢
  exact fun hmem => ha (h a hmem)

/-- Marking a genuinely new universe signature seen strictly decreases the
unseen count. -/
theorem unseen_lt (U : List String) (x : String) (s : List String)
    (hxU : x ∈ U) (hxs : x ∉ s) :
    unseenCount U (x :: s) < unseenCount U s := by
  unfold unseenCount
  refine filter_length_lt _ _ ?_ U x hxU ?_ ?_
  · intro a ha
    simp only [decide_eq_true_eq] at ha ⊢
    exact fun hmem => ha (List.mem_cons_of_mem x hmem)
  · simp
  · simp [hxs]

/-- When the AIA scan succeeds, the fetched certificate came from the fetch
oracle and its signature was not yet seen. -/
theorem findNewIssuer_spec (env : FetchEnv) (seen : List String) :
    ∀ (urls : List String) (url : String) (crt : FetchedIntermediate),
      findNewIssuer env seen urls = some (url, crt) →
      env.fetch url = some crt ∧ crt.cert.signature ∉ seen := by
  intro urls
  induction urls with
  | nil => intro url crt h; simp [findNewIssuer] at h
  | cons u us ih =>
      intro url crt h
      unfold findNewIssuer at h
      by_cases h1 : u ∈ seen
      · rw [if_pos h1] at h
        exact ih url crt h
      · rw [if_neg h1] at h
        split at h
        · exact ih url crt h
        · rename_i crt2 heq
          by_cases h2 : crt2.cert.signature ∈ seen
          · rw [if_pos h2] at h
            exact ih url crt h
          · rw [if_neg h2] at h
            cases h
            exact ⟨heq, h2⟩

/-- Termination of the DFS loop: whenever the fuel exceeds twice the
unseen-signature count plus the chain length, the loop completes.  Each
iteration either pops the top element or prepends one certificate whose
signature was unseen, and signatures come from the finite universe. -/
theorem fetchLoopFuel_isSome (env : FetchEnv)
    (hmem : ∀ u fi, env.fetch u = some fi → fi.cert.signature ∈ env.sigUniverse) :
    ∀ (fuel : Nat) (b : BundlerState) (seen : List String) (found : Nat)
      (chain : List FetchedIntermediate),
      2 * unseenCount env.sigUniverse seen + chain.length < fuel →
      ∃ r, fetchLoopFuel env fuel b seen found chain = some r := by
  intro fuel
  induction fuel with
  | zero => intro b seen found chain h; omega
  | succ f ih =>
      intro b seen found chain h
      cases chain with
      | nil => exact ⟨(found, b), rfl⟩
      | cons current rest =>
          simp only [List.length_cons] at h
          unfold fetchLoopFuel
          by_cases hv : (verifyChain env.verify b (current :: rest)).1 = true
          · simp only [hv, if_true]
            exact ih _ seen (found + 1) rest (by omega)
          · simp only [hv, if_false, Bool.false_eq_true]
            cases hfind : findNewIssuer env seen current.cert.issuingCertificateURL with
            | none =>
                exact ih _ seen found rest (by omega)
            | some p =>
                obtain ⟨url, crt⟩ := p
                obtain ⟨hfetch, hsig⟩ := findNewIssuer_spec env seen _ url crt hfind
                have hsigU := hmem url crt hfetch
                have hle : unseenCount env.sigUniverse
                    (crt.cert.signature :: url :: seen) ≤
                      unseenCount env.sigUniverse (crt.cert.signature :: seen) :=
                  unseen_mono _ _ _ (by
                    intro t ht
                    rcases List.mem_cons.1 ht with rfl | ht2
                    · exact List.mem_cons_self _ _
                    · exact List.mem_cons_of_mem _ (List.mem_cons_of_mem _ ht2))
                have hlt := unseen_lt env.sigUniverse crt.cert.signature seen hsigU hsig
                exact ih _ _ found (crt :: current :: rest)
                  (by simp only [List.length_cons]; omega)

/-- Claim C9: for any fetch oracle whose certificates carry signatures from
a finite universe, the DFS loop of `fetchIntermediates` terminates, and the
walk returns `UnknownAuthorityError` if and only if zero found chains were
counted on exit. -/
theorem fetch_walk_terminates (env : FetchEnv) (b : BundlerState)
    (certs : List Cert)
    (hmem : ∀ u fi, env.fetch u = some fi → fi.cert.signature ∈ env.sigUniverse) :
    ∃ r, fetchIntermediates env b certs = some r
      ∧ (r.1 = Except.error BundlerErr.unknownAuthority ↔ r.2 = 0) := by
  obtain ⟨⟨found, b2⟩, hr⟩ := fetchLoopFuel_isSome env hmem
    (loopFuel env (certs.map (·.signature)) (initialChain certs)) b
    (certs.map (·.signature)) 0 (initialChain certs)
    (by unfold loopFuel; omega)
  refine ⟨(if found = 0 then Except.error BundlerErr.unknownAuthority
      else Except.ok b2, found), ?_, ?_⟩
  · simp only [fetchIntermediates]
    rw [hr]
  · by_cases h0 : found = 0
    · simp [h0]
    · simp [h0]

/-- Witness for C9: the trivial environment terminates on the concrete
input and reports unknown authority with zero found chains. -/
theorem fetch_walk_terminates_witness :
    ∃ r, fetchIntermediates trivialEnv emptyBundler [exLeaf] = some r
      ∧ (r.1 = Except.error BundlerErr.unknownAuthority ↔ r.2 = 0) :=
  fetch_walk_terminates trivialEnv emptyBundler [exLeaf]
    (fun _ _ h => Option.noConfusion h)

/-- A chain all of whose signatures are known is accepted by `verifyChain`
with the state untouched, for any verifier oracle. -/
theorem verifyChainAux_all_known (verify : Cert → BundlerState → Bool) :
    ∀ (chain : List FetchedIntermediate) (b : BundlerState) (isTop : Bool),
      (∀ fi ∈ chain, fi.cert.signature ∈ b.knownIssuers) →
      verifyChainAux verify b isTop chain = (true, b) := by
  intro chain
  induction chain with
  | nil => intro b isTop _; rfl
  | cons fi rest ih =>
      intro b isTop hknown
      unfold verifyChainAux
      rw [if_pos (hknown fi (List.mem_cons_self fi rest))]
      exact ih b false (fun g hg => hknown g (List.mem_cons_of_mem fi hg))

/-- Every element of the seeded reversed chain carries one of the input
certificates. -/
theorem initialChainAux_cert_mem :
    ∀ (cs : List Cert) (i : Nat) (acc : List FetchedIntermediate)
      (fi : FetchedIntermediate),
      fi ∈ initialChainAux i cs acc → fi.cert ∈ cs ∨ fi ∈ acc := by
  intro cs
  induction cs with
  | nil => intro i acc fi h; exact Or.inr h
  | cons c cs ih =>
      intro i acc fi h
      unfold initialChainAux at h
      rcases ih (i + 1) _ fi h with h1 | h1
      · exact Or.inl (List.mem_cons_of_mem c h1)
      · rcases List.mem_cons.1 h1 with rfl | h2
        · exact Or.inl (List.mem_cons_self c cs)
        · exact Or.inr h2

/-- The seeded reversed chain has the length of the input. -/
theorem initialChainAux_length :
    ∀ (cs : List Cert) (i : Nat) (acc : List FetchedIntermediate),
      (initialChainAux i cs acc).length = cs.length + acc.length := by
  intro cs
  induction cs with
  | nil => intro i acc; simp [initialChainAux]
  | cons c cs ih =>
      intro i acc
      unfold initialChainAux
      rw [ih]
      simp only [List.length_cons, List.length_append, List.length_nil,
        List.length_singleton]
      omega

/-- The DFS loop over an all-known chain pops one element per iteration,
counting every suffix as a found chain and leaving the state untouched. -/
theorem fetchLoopFuel_all_known (env : FetchEnv) :
    ∀ (chain : List FetchedIntermediate) (fuel : Nat) (b : BundlerState)
      (seen : List String) (found : Nat),
      (∀ fi ∈ chain, fi.cert.signature ∈ b.knownIssuers) →
      chain.length < fuel →
      fetchLoopFuel env fuel b seen found chain =
        some (found + chain.length, b) := by
  intro chain
  induction chain with
  | nil =>
      intro fuel b seen found _ hfuel
      cases fuel with
      | zero => omega
      | succ f => rfl
  | cons current rest ih =>
      intro fuel b seen found hknown hfuel
      cases fuel with
      | zero => simp at hfuel
      | succ f =>
          unfold fetchLoopFuel
          have hv : verifyChain env.verify b (current :: rest) = (true, b) :=
            verifyChainAux_all_known env.verify (current :: rest) b true hknown
          simp only [hv, if_true]
          rw [ih f b seen (found + 1)
            (fun g hg => hknown g (List.mem_cons_of_mem current hg))
            (by simp only [List.length_cons] at hfuel; omega)]
          have harith : found + 1 + rest.length = found + (current :: rest).length := by
            simp only [List.length_cons]
            omega
          rw [harith]

/-- Claim C10: a non-empty certificate list all of whose signatures are in
`KnownIssuers` is accepted by `verifyChain` with the state unchanged for
EVERY verifier oracle (so the x509 verifier is never consulted), and
`fetchIntermediates` consequently counts every suffix as a found chain and
succeeds, regardless of whether the certificates form an issuance path to a
trusted root. -/
theorem known_chain_short_circuit (b : BundlerState) (certs : List Cert)
    (hne : certs ≠ [])
    (hknown : ∀ c ∈ certs, c.signature ∈ b.knownIssuers) :
    (∀ verify, verifyChain verify b (initialChain certs) = (true, b))
    ∧ ∀ env : FetchEnv,
        fetchIntermediates env b certs = some (Except.ok b, certs.length) := by
  have hkchain : ∀ fi ∈ initialChain certs, fi.cert.signature ∈ b.knownIssuers := by
    intro fi hfi
    rcases initialChainAux_cert_mem certs 0 [] fi hfi with h | h
    · exact hknown fi.cert h
    · simp at h
  have hlen : (initialChain certs).length = certs.length := by
    have h := initialChainAux_length certs 0 []
    simpa [initialChain] using h
  constructor
  · intro verify
    exact verifyChainAux_all_known verify (initialChain certs) b true hkchain
  · intro env
    simp only [fetchIntermediates]
    rw [fetchLoopFuel_all_known env (initialChain certs) _ b _ 0 hkchain
      (by unfold loopFuel; omega)]
    rw [hlen]
    have h0 : certs.length ≠ 0 := by
      cases certs with
      | nil => exact absurd rfl hne
      | cons c cs => simp
    simp only [Nat.zero_add]
    rw [if_neg h0]

/-- Witness for C10: the bundler that knows the leaf signature accepts the
chain under the always-failing verifier and counts it found. -/
theorem known_chain_short_circuit_witness :
    verifyChain (fun _ _ => false) knownBundler (initialChain [exLeaf]) =
        (true, knownBundler)
    ∧ fetchIntermediates trivialEnv knownBundler [exLeaf] =
        some (Except.ok knownBundler, 1) := by
  constructor
  · exact (known_chain_short_circuit knownBundler [exLeaf] (by decide)
      (by decide)).1 (fun _ _ => false)
  · have h := (known_chain_short_circuit knownBundler [exLeaf] (by decide)
      (by decide)).2 trivialEnv
    simpa using h

end CFSSL
